import Mathlib

/-!
Verification development for the NODE coffee-analysis front end.

The repository's text-processing code (`parseAnalysis` / `extractSection` in
`coffee-product-view.tsx`) runs JavaScript regular expressions over the
free-text analysis string.  We embed each concrete pattern as an executable
matcher over `List Char`, reproducing the JS engine's leftmost-match and
greedy/lazy backtracking behaviour for these specific patterns.  The chat
modal's file validation, upload handlers, image downscaling arithmetic and
form submission are embedded as pure functions.
-/

/-- Character class of JavaScript's regex `\s` (also used by `String.trim`):
tab, LF, VT, FF, CR, space, NBSP, and the Unicode space separators. -/
def isJsWhitespace (c : Char) : Bool :=
  c.toNat == 9 || c.toNat == 10 || c.toNat == 11 || c.toNat == 12 ||
  c.toNat == 13 || c.toNat == 32 || c.toNat == 160 || c.toNat == 0x1680 ||
  (decide (0x2000 ≤ c.toNat) && decide (c.toNat ≤ 0x200A)) ||
  c.toNat == 0x2028 || c.toNat == 0x2029 || c.toNat == 0x202F ||
  c.toNat == 0x205F || c.toNat == 0x3000 || c.toNat == 0xFEFF

/-- Character class of regex `\d`. -/
def isDigitChar (c : Char) : Bool :=
  decide (48 ≤ c.toNat) && decide (c.toNat ≤ 57)

/-- Character class of regex `[A-Z]`. -/
def isUpperAZ (c : Char) : Bool :=
  decide (65 ≤ c.toNat) && decide (c.toNat ≤ 90)

/-- Character class of regex `[a-z]`. -/
def isLowerAZ (c : Char) : Bool :=
  decide (97 ≤ c.toNat) && decide (c.toNat ≤ 122)

/-- Text character `c` matches pattern character `p` under the `i` flag:
either exactly, or `p` is a lowercase ASCII letter and `c` its uppercase
form.  (All case-insensitive patterns in the source are ASCII; patterns are
stored lowercased.) -/
def ciCharMatches (p c : Char) : Bool :=
  c == p || (decide (97 ≤ p.toNat) && decide (p.toNat ≤ 122) &&
             (c.toNat + 32 == p.toNat))

/-- The character list of a string literal. -/
def strOf (s : String) : List Char := s.data

/-- JavaScript `String.prototype.trim`. -/
def jsTrim (l : List Char) : List Char :=
  ((l.dropWhile isJsWhitespace).reverse.dropWhile isJsWhitespace).reverse

/-- Match a case-insensitive literal (lowercased pattern `ps`) at the head of
`s`, returning the rest of `s` on success. -/
def matchCI : List Char → List Char → Option (List Char)
  | [], s => some s
  | _ :: _, [] => none
  | p :: ps, c :: cs => if ciCharMatches p c then matchCI ps cs else none

/-- Match a case-sensitive literal at the head of `s`, returning the rest of
`s` on success. -/
def matchCS : List Char → List Char → Option (List Char)
  | [], s => some s
  | _ :: _, [] => none
  | p :: ps, c :: cs => if c == p then matchCS ps cs else none

/-- Leftmost-match scan: JS `String.prototype.match` tries the pattern at
every start position of the string, in order, returning the first success. -/
def scanFirst {α : Type} (m : List Char → Option α) : List Char → Option α
  | [] => m []
  | c :: cs =>
    match m (c :: cs) with
    | some r => some r
    | none => scanFirst m cs

/-- Digit-string value, as computed by `parseInt` on a `\d+` capture. -/
def natOfDigits (ds : List Char) : Nat :=
  ds.foldl (fun acc c => 10 * acc + (c.toNat - 48)) 0

/-- Attempt of `/Roast\s*level\s*Profile:\s*(\d+)\/5/i` at a fixed position
(source: `coffee-product-view.tsx`, `parseAnalysis`, roast-level extraction).
Each greedy `\s*`/`\d+` run here is deterministic because the character class
of the following literal is disjoint from the run's class, so no backtracking
can change the outcome. -/
def matchRoastAt (s : List Char) : Option Nat :=
  (matchCI (strOf "roast") s).bind fun r1 =>
  (matchCI (strOf "level") (r1.dropWhile isJsWhitespace)).bind fun r2 =>
  (matchCI (strOf "profile:") (r2.dropWhile isJsWhitespace)).bind fun r3 =>
  (matchCS (strOf "/5")
      ((r3.dropWhile isJsWhitespace).dropWhile isDigitChar)).bind fun _ =>
  if ((r3.dropWhile isJsWhitespace).takeWhile isDigitChar).isEmpty then none
  else some (natOfDigits ((r3.dropWhile isJsWhitespace).takeWhile isDigitChar))

/-- Tail `\s*([^\n]+)` of the three line-extraction regexes.  The greedy
`\s*` backtracks only when the string ends inside the whitespace run, in
which case the capture is the last non-newline whitespace character. -/
def matchRestOfLine (s : List Char) : Option (List Char) :=
  match s.dropWhile isJsWhitespace with
  | c :: cs => some ((c :: cs).takeWhile (fun x => !(x == '\n')))
  | [] =>
    match (s.takeWhile isJsWhitespace).reverse.dropWhile (fun x => x == '\n') with
    | [] => none
    | c :: _ => some [c]

/-- Attempt of `/Primary\s*coffee\s*origin:\s*([^\n]+)/i` at a fixed
position. -/
def matchPrimaryOriginAt (s : List Char) : Option (List Char) :=
  match matchCI (strOf "primary") s with
  | none => none
  | some r1 =>
    match matchCI (strOf "coffee") (r1.dropWhile isJsWhitespace) with
    | none => none
    | some r2 =>
      match matchCI (strOf "origin:") (r2.dropWhile isJsWhitespace) with
      | none => none
      | some r3 => matchRestOfLine r3

/-- Attempt of `/Specific\s*farm\/region\/processing\s*detail:\s*([^\n]+)/i`
at a fixed position. -/
def matchRegionAt (s : List Char) : Option (List Char) :=
  match matchCI (strOf "specific") s with
  | none => none
  | some r1 =>
    match matchCI (strOf "farm/region/processing") (r1.dropWhile isJsWhitespace) with
    | none => none
    | some r2 =>
      match matchCI (strOf "detail:") (r2.dropWhile isJsWhitespace) with
      | none => none
      | some r3 => matchRestOfLine r3

/-- Attempt of `/English\s*translation:\s*([^\n]+)/i` at a fixed position. -/
def matchTastingAt (s : List Char) : Option (List Char) :=
  match matchCI (strOf "english") s with
  | none => none
  | some r1 =>
    match matchCI (strOf "translation:") (r1.dropWhile isJsWhitespace) with
    | none => none
    | some r2 => matchRestOfLine r2

/-- Lazy `(.*?)(?=stop)` capture under the `s` flag: the shortest prefix
whose following position satisfies the lookahead `stop` (for the stops used
here, `stop` holds at the empty remainder, matching the `$` alternative). -/
def lazyCapture (stop : List Char → Bool) : List Char → List Char
  | [] => []
  | c :: cs => if stop (c :: cs) then [] else c :: lazyCapture stop cs

/-- Lookahead alternative `\n\n[A-Z]`. -/
def lookTwoNlUpper : List Char → Bool
  | '\n' :: '\n' :: c :: _ => isUpperAZ c
  | _ => false

/-- Lookahead alternative `\n[A-Z][a-z]+\s+[A-Z]`.  The greedy `[a-z]+` and
`\s+` runs are deterministic (disjoint classes). -/
def lookTitleLine : List Char → Bool
  | '\n' :: c :: rest =>
    isUpperAZ c &&
    !(rest.takeWhile isLowerAZ).isEmpty &&
    !((rest.dropWhile isLowerAZ).takeWhile isJsWhitespace).isEmpty &&
    (match (rest.dropWhile isLowerAZ).dropWhile isJsWhitespace with
     | d :: _ => isUpperAZ d
     | [] => false)
  | _ => false

/-- Lookahead `(?=\n\n[A-Z]|\n[A-Z][a-z]+\s+[A-Z]|$)` of the section regex. -/
def sectionStop (s : List Char) : Bool :=
  lookTwoNlUpper s || lookTitleLine s || s.isEmpty

/-- Attempt of `` new RegExp(`${sectionName}\s+(.*?)(?=\n\n[A-Z]|\n[A-Z][a-z]+\s+[A-Z]|$)`, 's') ``
at a fixed position: the literal section name, at least one whitespace
character, then the lazy dotall capture.  The greedy `\s+` takes its maximal
run (a completion always exists via the `$` alternative, so it never
backtracks). -/
def matchSectionAt (sectionName : List Char) (s : List Char) : Option (List Char) :=
  match matchCS sectionName s with
  | none => none
  | some r =>
    match r.takeWhile isJsWhitespace with
    | [] => none
    | _ :: _ => some (lazyCapture sectionStop (r.dropWhile isJsWhitespace))

/-- Lookahead `(?=\n\n|\n[A-Z]|$)` of the Expert Overview regex. -/
def expertStop : List Char → Bool
  | [] => true
  | '\n' :: '\n' :: _ => true
  | '\n' :: c :: _ => isUpperAZ c
  | _ => false

/-- Attempt of `/Expert\s*Overview\s*(.*?)(?=\n\n|\n[A-Z]|$)/s` (note: case
sensitive) at a fixed position. -/
def matchExpertAt (s : List Char) : Option (List Char) :=
  match matchCS (strOf "Expert") s with
  | none => none
  | some r1 =>
    match matchCS (strOf "Overview") (r1.dropWhile isJsWhitespace) with
    | none => none
    | some r2 => some (lazyCapture expertStop (r2.dropWhile isJsWhitespace))

/-- Source `extractSection` (coffee-product-view.tsx lines 60-64): first
match of the section regex, trimmed capture, or the empty string. -/
def extractSection (text : List Char) (sectionName : List Char) : List Char :=
  match scanFirst (matchSectionAt sectionName) text with
  | some g => jsTrim g
  | none => []

/-- Result record of `parseAnalysis` (the fields stored in `data`). `none`
models a field left `undefined`. -/
structure AnalysisData where
  roastLevel : Option Nat
  origin : Option (List Char)
  tastingNotes : Option (List Char)
  expertOverview : Option (List Char)
  aboutOrigin : List Char
  gradeAndSourcing : List Char
  processingMethod : List Char
  flavorProfile : List Char
  roastLevelDescription : List Char
deriving DecidableEq

/-- Source `parseAnalysis` (coffee-product-view.tsx lines 19-58). -/
def parseAnalysis (analysisText : List Char) : AnalysisData :=
  { roastLevel := scanFirst matchRoastAt analysisText
    origin :=
      match scanFirst matchPrimaryOriginAt analysisText with
      | none => none
      | some o =>
        match scanFirst matchRegionAt analysisText with
        | none => some (jsTrim o)
        | some r => some (jsTrim o ++ strOf " - " ++ jsTrim r)
    tastingNotes := (scanFirst matchTastingAt analysisText).map jsTrim
    expertOverview := (scanFirst matchExpertAt analysisText).map jsTrim
    aboutOrigin := extractSection analysisText (strOf "About the Origin")
    gradeAndSourcing := extractSection analysisText (strOf "Grade and Sourcing")
    processingMethod := extractSection analysisText (strOf "Processing Method")
    flavorProfile := extractSection analysisText (strOf "Flavor Profile")
    roastLevelDescription := extractSection analysisText (strOf "Roast Level") }

/-- The five in-depth section titles of `InDepthDescriptionsSection`. -/
def sectionTitles : List (List Char) :=
  [strOf "About the Origin", strOf "Grade and Sourcing",
   strOf "Processing Method", strOf "Flavor Profile", strOf "Roast Level"]

/-- Text shown by an in-depth card: `section.content || placeholder`
(coffee-product-view.tsx line 342); the empty string is falsy. -/
def renderSectionContent (title content : List Char) : List Char :=
  if content.isEmpty then title ++ strOf " information will appear after analysis."
  else content

/-- View state of the Roast Level card in `CoffeeDetailsGrid`
(coffee-product-view.tsx lines 197-232): either the textual placeholder, or
the five fill flags of the circle row together with the `N/5` label. -/
inductive RoastCardView where
  | placeholderText : List Char → RoastCardView
  | scale : List Bool → List Char → RoastCardView
deriving DecidableEq

/-- Rendering of the Roast Level card: `roastLevel ? (circles, label) :
placeholder`, where the JS number `0` (and `undefined`) is falsy; circle
`level` is filled iff `level <= roastLevel`. -/
def renderRoastCard : Option Nat → RoastCardView
  | none => .placeholderText (strOf "Roast level will appear after analysis")
  | some n =>
    if n = 0 then .placeholderText (strOf "Roast level will appear after analysis")
    else .scale ([1, 2, 3, 4, 5].map fun level => decide (level ≤ n))
           (strOf (toString n) ++ strOf "/5")

/-- An uploaded `File`: name, byte size, MIME type, and content bytes. -/
structure FileModel where
  name : String
  size : Nat
  type : String
  bytes : List Nat
deriving DecidableEq

/-- Security constant `MAX_FILE_SIZE = 10 * 1024 * 1024` (part_000 line 128). -/
def MAX_FILE_SIZE : Nat := 10 * 1024 * 1024

/-- Security constant `MAX_FILES = 5` (part_000 line 129). -/
def MAX_FILES : Nat := 5

/-- Security constant `ALLOWED_MIME_TYPES` (part_000 line 130). -/
def ALLOWED_MIME_TYPES : List String :=
  ["image/jpeg", "image/jpg", "image/png", "image/webp"]

/-- Source `validateFile` (part_000 lines 133-170), success path: size check,
MIME check, then magic-number sniffing over the first 12 bytes
(`file.slice(0, 12)`); an out-of-range `uint8Array[i]` is `undefined` and
compares unequal to every byte value. -/
def validateFile (file : FileModel) : Bool :=
  if MAX_FILE_SIZE < file.size then false
  else if !(ALLOWED_MIME_TYPES.contains file.type) then false
  else
    let u := file.bytes.take 12
    let isJPEG := u[0]? == some 0xFF && u[1]? == some 0xD8 && u[2]? == some 0xFF
    let isPNG := u[0]? == some 0x89 && u[1]? == some 0x50 &&
                 u[2]? == some 0x4E && u[3]? == some 0x47
    let isWEBP := u[8]? == some 0x57 && u[9]? == some 0x45 &&
                  u[10]? == some 0x42 && u[11]? == some 0x50
    isJPEG || isPNG || isWEBP

/-- Alert text for a rejected file (part_000 lines 203 and 230). -/
def rejectAlert (name : String) : String :=
  "File \"" ++ name ++ "\" was rejected. Please use valid image files under 10MB."

/-- Alert text for exceeding the file limit (part_000 lines 192 and 219). -/
def maxFilesAlert : String :=
  "Maximum " ++ toString MAX_FILES ++ " files allowed. Please remove some files first."

/-- Source `handleDrop` (part_000 lines 182-210) as a pure state transformer:
MIME-filter the incoming files, reject the whole batch (state unchanged, one
alert) when the limit would be exceeded, otherwise append exactly the files
passing `validateFile`, alerting for each rejected one.  Returns the new
`uploadedImages` list and the alerts raised. -/
def handleDrop (uploadedImages incoming : List FileModel) :
    List FileModel × List String :=
  let files := incoming.filter fun f => ALLOWED_MIME_TYPES.contains f.type
  if MAX_FILES < uploadedImages.length + files.length then
    (uploadedImages, [maxFilesAlert])
  else
    (uploadedImages ++ files.filter (fun f => validateFile f),
     (files.filter (fun f => !validateFile f)).map fun f => rejectAlert f.name)

/-- Source `handleFileSelect` (part_000 lines 212-237); its body is the same
batch logic as `handleDrop`, applied to `e.target.files`. -/
def handleFileSelect (uploadedImages incoming : List FileModel) :
    List FileModel × List String :=
  let files := incoming.filter fun f => ALLOWED_MIME_TYPES.contains f.type
  if MAX_FILES < uploadedImages.length + files.length then
    (uploadedImages, [maxFilesAlert])
  else
    (uploadedImages ++ files.filter (fun f => validateFile f),
     (files.filter (fun f => !validateFile f)).map fun f => rejectAlert f.name)

/-- Output of `compressImage`: canvas dimensions and the
`canvas.toDataURL('image/jpeg', 0.8)` encoding parameters.  Dimensions are
rationals, embedding the JS float arithmetic `(height * maxSize) / width`
exactly at these magnitudes. -/
structure CompressedImage where
  width : ℚ
  height : ℚ
  mime : String
  quality : ℚ
deriving DecidableEq

/-- Source `compressImage` dimension logic (part_000 lines 244-278) with
`maxSize = 800`: the encoded output is always JPEG at quality `0.8`. -/
def compressImage (width height : ℚ) : CompressedImage :=
  if height < width then
    if 800 < width then ⟨800, height * 800 / width, "image/jpeg", 4/5⟩
    else ⟨width, height, "image/jpeg", 4/5⟩
  else
    if 800 < height then ⟨width * 800 / height, 800, "image/jpeg", 4/5⟩
    else ⟨width, height, "image/jpeg", 4/5⟩

/-- Fixed prompt `COFFEE_ANALYSIS_PROMPT` (part_000 line 22). -/
def COFFEE_ANALYSIS_PROMPT : String :=
  "The coffee bean package shows a roast level, 5 circles between \"LIGHT\" and \"DARK\" on the package. Indicate the roast level as X/5."

/-- Fixed prompt `FOLLOW_UP_ANALYSIS_PROMPT` (part_000 lines 24-85). -/
def FOLLOW_UP_ANALYSIS_PROMPT : String :=
  String.intercalate "\n"
    ["STEP 1 - VALIDATION:",
     "If the NODE logo (dark navy blue, circular, around center of the package) is not present don’t continue to next step, stop here and respond with: \"Please take a picture of a product sold by NODE COFFEE ROASTERS.\"",
     "",
     "STEP 2 – Identify the following Product Description from Packaging:",
     "1.\tPrimary coffee origin - Examples: BRAZIL, GUATEMALA, MANDHELING, COSTA RICA",
     "2.\tSpecific farm/region/processing detail - Examples: ",
     "o\tMANDHELING: \"PWN G1\" (grade designation)",
     "o\tCOSTA RICA: \"Brunca Rivense Yellow Honey\"",
     "o\tBRAZIL: \"CARMO DE MINAS SANTA\"",
     "o\tGUATEMALA: \"Huehuetenango Maya Washed\"",
     "3.\tPrimary coffee origin and Specific farm/region/processing detail in CHINESE - Examples: Chinese versions of lines 1 on packaging",
     "4.\tChinese tasting notes/flavor descriptors (Include English translation for this) - Examples: Flavor characteristics written in Chinese",
     "5.\tOrigin region and processing method in Chinese (Include English translation for this) - Examples: 亚洲/半水洗, 中美洲/黄蜜处理法, 南美洲/去果皮日晒, 南美洲/水洗",
     "6.\tRoast level Profile – Get from previous analysis",
     "",
     "STEP 3 - COFFEE PRODUCT ANALYSIS:",
     "Coffee Product Analysis Prompt",
     "You are a knowledgeable coffee expert working at NODE COFFEE SHOP who provides engaging, digestible analysis of your coffee products. When given coffee product information, create a compelling narrative that highlights the most interesting and relevant details for each specific coffee. Write with confidence and expertise about your products. CRITICAL: Never use uncertain language like \"likely,\" \"probably,\" \"might refer to,\" or similar phrases. If you are not confident about a specific detail or term, simply omit it entirely rather than speculating. Only include information you are reasonably confident about (80%+ certainty) to maintain accuracy and authority.",
     "Analysis Structure:",
     "1. About the Origin",
     "•\tFocus on what makes THIS specific region unique and noteworthy",
     "•\tHighlight 1-2 key geographical or cultural details that matter for this coffee",
     "•\tMention altitude, climate, or soil only if particularly relevant to this origin",
     "•\tKeep it conversational and intriguing, not encyclopedic",
     "2. Grade and Sourcing (include only if present)",
     "•\tExplain any specific grades, farm names, or quality indicators mentioned",
     "•\tFocus on what these details tell us about quality or traceability",
     "•\tSkip this section if no specific grading information is provided",
     "3. Processing Method",
     "•\tExplain the processing method used and why it matters for THIS coffee",
     "•\tConnect the processing to the expected flavor outcomes",
     "•\tBe specific about how this method affects the final cup",
     "4. Flavor Profile",
     "•\tInterpret the tasting notes in an engaging, accessible way",
     "•\tExplain how the flavors work together and what creates the overall experience",
     "•\tMake it easy to imagine what drinking this coffee will be like",
     "5. Roast Level",
     "•\tExplain the roast level and its key characteristics",
     "•\tFocus on how this roast level serves this particular coffee",
     "•\tMention visual and taste impacts concisely",
     "6. Expert Overview",
     "•\tCreate a concise, compelling sales pitch (2-3 sentences maximum)",
     "•\tHighlight key flavors and characteristics that make this coffee irresistible",
     "•\tWrite as if you\x27re personally recommending this coffee to a customer in the shop",
     "•\tFocus on the unique qualities and overall experience this coffee offers",
     "•\tMake it enticing and persuasive without being overly promotional",
     "Guidelines:",
     "•\tWrite in clear, engaging English throughout",
     "•\tBe selective - highlight the most compelling aspects for each specific coffee",
     "•\tKeep each section concise but informative (2-4 sentences typically)",
     "•\tFocus on practical insights that help readers understand what they\x27re buying",
     "•\tCorrect any geographical errors in source material",
     "•\tAdapt the depth of detail to what\x27s most relevant for each coffee",
     "•\tCreate a compelling narrative, not a technical report",
     "Input Format Expected:",
     "1.\tPrimary coffee name",
     "2.\tSpecific farm/region/processing details",
     "3.\tTasting notes/flavor descriptors",
     "4.\tOrigin region and processing method",
     "5.\tRoast level profile",
     "6.\tPackage weight (if provided)",
     "Your goal is to create an informative yet digestible analysis that makes readers excited about their coffee while understanding its unique characteristics."]

/-- Role of a chat message sent through `append`. -/
inductive ChatRole where
  | user : ChatRole
  | assistant : ChatRole
deriving DecidableEq

/-- An attachment as built in `handleFormSubmit` (part_000 lines 290-297):
`name` is the original file's name and `contentType` is always
`'image/jpeg'` after compression.  (The `url` field, a canvas-produced data
URL, is I/O-dependent and not part of any claim.) -/
structure SentAttachment where
  name : String
  contentType : String
deriving DecidableEq

/-- A user message as passed to `append`. -/
structure SentMessage where
  role : ChatRole
  content : String
  attachments : Option (List SentAttachment)
deriving DecidableEq

/-- Source `handleFormSubmit` (part_000 lines 280-331) as the sequence of
messages sent to the chat endpoint: nothing when both the trimmed input and
the image list are empty; otherwise one user message (the engineered prompt
when only images were provided, the raw input otherwise) with the compressed
attachments, followed by the follow-up prompt when images were uploaded with
empty trimmed input. -/
def handleFormSubmit (input : String) (uploadedImages : List FileModel) :
    List SentMessage :=
  if (jsTrim input.data).isEmpty && uploadedImages.isEmpty then []
  else
    let hasImages := !uploadedImages.isEmpty
    let attachments : Option (List SentAttachment) :=
      if hasImages then
        some (uploadedImages.map fun f => ⟨f.name, "image/jpeg"⟩)
      else none
    let messageText :=
      if (jsTrim input.data).isEmpty && hasImages then COFFEE_ANALYSIS_PROMPT
      else input
    if hasImages && (jsTrim input.data).isEmpty then
      [⟨ChatRole.user, messageText, attachments⟩,
       ⟨ChatRole.user, FOLLOW_UP_ANALYSIS_PROMPT, none⟩]
    else [⟨ChatRole.user, messageText, attachments⟩]

/-- Substring test, as JS `String.prototype.includes`. -/
def containsSub (needle hay : List Char) : Bool :=
  (scanFirst (matchCS needle) hay).isSome

/-- Banner text chosen by the `useChat` `onError` handler (part_000 lines
100-109). -/
def errorMessageFor (message : String) : String :=
  if containsSub (strOf "429") message.data then
    "Too many requests. Please wait a minute before trying again."
  else if containsSub (strOf "503") message.data then
    "Service temporarily unavailable. Please try again later."
  else "An error occurred. Please try again."

/-- The failure paths of the component that produce user-visible output:
per-file rejection and batch-limit violation in the upload handlers, and
chat transport errors reported to `onError`. -/
inductive UserFacingFailure where
  | fileRejected : String → UserFacingFailure
  | batchLimitExceeded : UserFacingFailure
  | chatError : String → UserFacingFailure
deriving DecidableEq

/-- How a failure is shown to the user: an `alert()` dialog, or the inline
red error banner rendered from the `error` state (part_000 lines 481-496). -/
inductive SurfaceMechanism where
  | alertDialog : String → SurfaceMechanism
  | errorBanner : String → SurfaceMechanism
deriving DecidableEq

/-- Surfacing of each failure path: the upload handlers call `alert(...)`
(part_000 lines 192, 203, 219, 230) while `onError` calls `setError(...)`,
which renders the banner (part_000 lines 100-109, 481-496). -/
def surfaceFailure : UserFacingFailure → SurfaceMechanism
  | .fileRejected name => .alertDialog (rejectAlert name)
  | .batchLimitExceeded => .alertDialog maxFilesAlert
  | .chatError message => .errorBanner (errorMessageFor message)

/-- The `ChatModal` component state (part_000 lines 88-94). -/
structure ComponentState where
  isDragging : Bool
  uploadedImages : List FileModel
  error : Option String
  showProductView : Bool
  analysisResult : String
  analysisImages : List String
deriving DecidableEq

/-- `parseAnalysis` as called during a render of `CoffeeProductView`: it is
defined inside the component but reads only its `analysisText` argument, no
component state. -/
def parseAnalysisInComponent (_state : ComponentState) (analysisText : List Char) :
    AnalysisData :=
  parseAnalysis analysisText

/-- Specification-level statement that text `pre` matches the lowercased
literal pattern `ps` under the `i` flag. -/
def CIMatches (ps pre : List Char) : Prop :=
  List.Forall₂ (fun p c => ciCharMatches p c = true) ps pre

theorem matchCI_eq_some_iff (ps : List Char) :
    ∀ s r, matchCI ps s = some r ↔ ∃ pre, s = pre ++ r ∧ CIMatches ps pre := by
  induction ps with
  | nil =>
    intro s r
    simp only [matchCI, Option.some.injEq, CIMatches]
    constructor
    · intro h
      exact ⟨[], by simp [h], List.Forall₂.nil⟩
    · rintro ⟨pre, hs, hm⟩
      cases hm
      simpa using hs
  | cons p ps ih =>
    intro s r
    cases s with
    | nil =>
      simp only [matchCI]
      constructor
      · intro h; cases h
      · rintro ⟨pre, hs, hm⟩
        cases hm with
        | cons _ _ => cases hs
    | cons c cs =>
      simp only [matchCI]
      by_cases hc : ciCharMatches p c = true
      · rw [if_pos hc, ih cs r]
        constructor
        · rintro ⟨pre, hcs, hm⟩
          exact ⟨c :: pre, by simp [hcs], List.Forall₂.cons hc hm⟩
        · rintro ⟨pre, hs, hm⟩
          cases hm with
          | cons hpc hm2 =>
            rw [List.cons_append] at hs
            injection hs with h1 h2
            subst h1
            exact ⟨_, h2, hm2⟩
      · rw [if_neg hc]
        constructor
        · intro h; cases h
        · rintro ⟨pre, hs, hm⟩
          cases hm with
          | cons hpc hm2 =>
            rw [List.cons_append] at hs
            injection hs with h1 h2
            subst h1
            exact absurd hpc hc

theorem matchCS_eq_some_iff (ps : List Char) :
    ∀ s r, matchCS ps s = some r ↔ s = ps ++ r := by
  induction ps with
  | nil =>
    intro s r
    simp only [matchCS, Option.some.injEq, List.nil_append]
  | cons p ps ih =>
    intro s r
    cases s with
    | nil =>
      simp only [matchCS, List.cons_append]
      constructor
      · intro h; cases h
      · intro h; cases h
    | cons c cs =>
      simp only [matchCS, List.cons_append]
      by_cases hc : (c == p) = true
      · rw [if_pos hc, ih cs r]
        have hcp : c = p := by simpa using hc
        subst hcp
        constructor
        · intro h; rw [h]
        · intro h; simpa using h
      · rw [if_neg hc]
        have hcp : ¬ c = p := by simpa using hc
        constructor
        · intro h; cases h
        · intro h
          injection h with h1 _
          exact absurd h1 hcp

theorem dropWhile_append_eq (q : Char → Bool) :
    ∀ w t : List Char, (∀ c ∈ w, q c = true) →
      (∀ c cs, t = c :: cs → q c = false) →
      (w ++ t).dropWhile q = t := by
  intro w
  induction w with
  | nil =>
    intro t _ ht
    cases t with
    | nil => rfl
    | cons c cs => simp [List.dropWhile_cons, ht c cs rfl]
  | cons a w ih =>
    intro t hw ht
    have ha : q a = true := hw a (List.mem_cons_self a w)
    simp only [List.cons_append, List.dropWhile_cons, ha, if_true]
    exact ih t (fun c hc => hw c (List.mem_cons_of_mem a hc)) ht

theorem takeWhile_append_eq (q : Char → Bool) :
    ∀ w t : List Char, (∀ c ∈ w, q c = true) →
      (∀ c cs, t = c :: cs → q c = false) →
      (w ++ t).takeWhile q = w := by
  intro w
  induction w with
  | nil =>
    intro t _ ht
    cases t with
    | nil => rfl
    | cons c cs => simp [List.takeWhile_cons, ht c cs rfl]
  | cons a w ih =>
    intro t hw ht
    have ha : q a = true := hw a (List.mem_cons_self a w)
    simp only [List.cons_append, List.takeWhile_cons, ha, if_true]
    rw [ih t (fun c hc => hw c (List.mem_cons_of_mem a hc)) ht]

theorem mem_takeWhile_q (q : Char → Bool) :
    ∀ l : List Char, ∀ c ∈ l.takeWhile q, q c = true := by
  intro l
  induction l with
  | nil => intro c hc; cases hc
  | cons a l ih =>
    intro c hc
    by_cases ha : q a = true
    · rw [List.takeWhile_cons_of_pos ha] at hc
      rcases List.mem_cons.mp hc with h | h
      · rw [h]; exact ha
      · exact ih c h
    · rw [List.takeWhile_cons_of_neg (by simpa using ha)] at hc
      cases hc

theorem dropWhile_head_q (q : Char → Bool) :
    ∀ l : List Char, ∀ c cs, l.dropWhile q = c :: cs → q c = false := by
  intro l
  induction l with
  | nil => intro c cs h; cases h
  | cons a l ih =>
    intro c cs h
    by_cases ha : q a = true
    · rw [List.dropWhile_cons_of_pos ha] at h
      exact ih c cs h
    · rw [List.dropWhile_cons_of_neg (by simpa using ha)] at h
      injection h with h1 _
      rw [← h1]
      simpa using ha

theorem scanFirst_eq_some_iff {α : Type} (m : List Char → Option α) :
    ∀ (s : List Char) (a : α),
      scanFirst m s = some a ↔
        ∃ i, m (s.drop i) = some a ∧ ∀ j, j < i → m (s.drop j) = none := by
  intro s
  induction s with
  | nil =>
    intro a
    simp only [scanFirst, List.drop_nil]
    constructor
    · intro h
      exact ⟨0, h, fun j hj => absurd hj (by omega)⟩
    · rintro ⟨i, hi, _⟩
      exact hi
  | cons c cs ih =>
    intro a
    cases hm : m (c :: cs) with
    | some b =>
      simp only [scanFirst, hm]
      constructor
      · intro h
        exact ⟨0, by simpa [hm] using h, fun j hj => absurd hj (by omega)⟩
      · rintro ⟨i, hi, hmin⟩
        cases i with
        | zero => simpa [hm] using hi
        | succ i =>
          have h0 : m (c :: cs) = none := by simpa using hmin 0 (by omega)
          rw [hm] at h0
          cases h0
    | none =>
      simp only [scanFirst, hm, ih]
      constructor
      · rintro ⟨i, hi, hmin⟩
        refine ⟨i + 1, by simpa using hi, fun j hj => ?_⟩
        cases j with
        | zero => simpa using hm
        | succ j => simpa using hmin j (by omega)
      · rintro ⟨i, hi, hmin⟩
        cases i with
        | zero => rw [List.drop_zero] at hi; exact absurd hi (by simp [hm])
        | succ i =>
          exact ⟨i, by simpa using hi, fun j hj => by simpa using hmin (j + 1) (by omega)⟩

theorem scanFirst_eq_none_iff {α : Type} (m : List Char → Option α) :
    ∀ s : List Char, scanFirst m s = none ↔ ∀ i, m (s.drop i) = none := by
  intro s
  induction s with
  | nil =>
    simp only [scanFirst, List.drop_nil]
    constructor
    · intro h _; exact h
    · intro h; exact h 0
  | cons c cs ih =>
    cases hm : m (c :: cs) with
    | some b =>
      simp only [scanFirst, hm]
      constructor
      · intro h; cases h
      · intro h; exact absurd (by simpa using h 0) (by simp [hm])
    | none =>
      simp only [scanFirst, hm, ih]
      constructor
      · intro h i
        cases i with
        | zero => simpa using hm
        | succ i => simpa using h i
      · intro h i
        simpa using h (i + 1)

theorem isJsWhitespace_eq_true_iff (c : Char) :
    isJsWhitespace c = true ↔
      (c.toNat = 9 ∨ c.toNat = 10 ∨ c.toNat = 11 ∨ c.toNat = 12 ∨
       c.toNat = 13 ∨ c.toNat = 32 ∨ c.toNat = 160 ∨ c.toNat = 0x1680 ∨
       (0x2000 ≤ c.toNat ∧ c.toNat ≤ 0x200A) ∨ c.toNat = 0x2028 ∨
       c.toNat = 0x2029 ∨ c.toNat = 0x202F ∨ c.toNat = 0x205F ∨
       c.toNat = 0x3000 ∨ c.toNat = 0xFEFF) := by
  simp only [isJsWhitespace, Bool.or_eq_true, Bool.and_eq_true, beq_iff_eq,
             decide_eq_true_eq]
  tauto

theorem ws_eq_false_of_range (c : Char) (h1 : 33 ≤ c.toNat) (h2 : c.toNat ≤ 126) :
    isJsWhitespace c = false := by
  by_contra h
  rw [Bool.not_eq_false, isJsWhitespace_eq_true_iff] at h
  omega

theorem ciCharMatches_cases (p c : Char) (h : ciCharMatches p c = true) :
    c = p ∨ (97 ≤ p.toNat ∧ p.toNat ≤ 122 ∧ c.toNat + 32 = p.toNat) := by
  simpa [ciCharMatches, Bool.or_eq_true, Bool.and_eq_true, beq_iff_eq,
         decide_eq_true_eq, and_assoc] using h

theorem ws_eq_false_of_ci (p c : Char) (h : ciCharMatches p c = true)
    (h1 : 33 ≤ p.toNat) (h2 : p.toNat ≤ 126) : isJsWhitespace c = false := by
  rcases ciCharMatches_cases p c h with h | ⟨ha, hb, hc⟩
  · rw [h]; exact ws_eq_false_of_range p h1 h2
  · exact ws_eq_false_of_range c (by omega) (by omega)

theorem ws_eq_false_of_digit (c : Char) (h : isDigitChar c = true) :
    isJsWhitespace c = false := by
  simp only [isDigitChar, Bool.and_eq_true, decide_eq_true_eq] at h
  exact ws_eq_false_of_range c (by omega) (by omega)

/-- Declarative reading of one match of
`/Roast\s*level\s*Profile:\s*(\d+)\/5/i` starting exactly at the head of
`t`: the literal words matched case-insensitively, separated by (possibly
empty) whitespace runs, then a nonempty digit group of value `n` followed by
the literal `/5`.  (Such a decomposition is unique when it exists, because
each whitespace or digit run is delimited by a character of a disjoint
class.) -/
def RoastDecomp (t : List Char) (n : Nat) : Prop :=
  ∃ r w1 l w2 p w3 ds rest,
    t = r ++ w1 ++ l ++ w2 ++ p ++ w3 ++ ds ++ '/' :: '5' :: rest ∧
    CIMatches (strOf "roast") r ∧ (∀ c ∈ w1, isJsWhitespace c = true) ∧
    CIMatches (strOf "level") l ∧ (∀ c ∈ w2, isJsWhitespace c = true) ∧
    CIMatches (strOf "profile:") p ∧ (∀ c ∈ w3, isJsWhitespace c = true) ∧
    ds ≠ [] ∧ (∀ c ∈ ds, isDigitChar c = true) ∧ natOfDigits ds = n

theorem matchRoastAt_eq_some_iff (t : List Char) (n : Nat) :
    matchRoastAt t = some n ↔ RoastDecomp t n := by
  constructor
  · intro h
    simp only [matchRoastAt, Option.bind_eq_some] at h
    obtain ⟨r1, h1, r2, h2, r3, h3, r4, h4, h5⟩ := h
    by_cases he : ((r3.dropWhile isJsWhitespace).takeWhile isDigitChar).isEmpty = true
    · rw [if_pos he] at h5; cases h5
    · rw [if_neg he] at h5
      injection h5 with h5
      obtain ⟨r, hr1, hr⟩ := (matchCI_eq_some_iff _ _ _).mp h1
      obtain ⟨l, hl1, hl⟩ := (matchCI_eq_some_iff _ _ _).mp h2
      obtain ⟨p, hp1, hp⟩ := (matchCI_eq_some_iff _ _ _).mp h3
      have h4' := (matchCS_eq_some_iff _ _ _).mp h4
      refine ⟨r, r1.takeWhile isJsWhitespace, l, r2.takeWhile isJsWhitespace, p,
              r3.takeWhile isJsWhitespace,
              (r3.dropWhile isJsWhitespace).takeWhile isDigitChar, r4,
              ?_, hr, ?_, hl, ?_, hp, ?_, ?_, ?_, h5⟩
      · have e1 : r1 = r1.takeWhile isJsWhitespace ++ (l ++ r2) := by
          conv_lhs => rw [← List.takeWhile_append_dropWhile (p := isJsWhitespace) (l := r1)]
          rw [hl1]
        have e2 : r2 = r2.takeWhile isJsWhitespace ++ (p ++ r3) := by
          conv_lhs => rw [← List.takeWhile_append_dropWhile (p := isJsWhitespace) (l := r2)]
          rw [hp1]
        have e3 : r3 = r3.takeWhile isJsWhitespace ++
            ((r3.dropWhile isJsWhitespace).takeWhile isDigitChar ++
              ('/' :: '5' :: r4)) := by
          conv_lhs => rw [← List.takeWhile_append_dropWhile (p := isJsWhitespace) (l := r3)]
          congr 1
          conv_lhs => rw [← List.takeWhile_append_dropWhile (p := isDigitChar)
              (l := r3.dropWhile isJsWhitespace)]
          rw [h4']
          rfl
        calc t = r ++ r1 := hr1
          _ = r ++ (r1.takeWhile isJsWhitespace ++ (l ++ r2)) := by rw [← e1]
          _ = r ++ (r1.takeWhile isJsWhitespace ++
                (l ++ (r2.takeWhile isJsWhitespace ++ (p ++ r3)))) := by rw [← e2]
          _ = r ++ (r1.takeWhile isJsWhitespace ++
                (l ++ (r2.takeWhile isJsWhitespace ++
                  (p ++ (r3.takeWhile isJsWhitespace ++
                    ((r3.dropWhile isJsWhitespace).takeWhile isDigitChar ++
                      ('/' :: '5' :: r4))))))) := by rw [← e3]
          _ = r ++ r1.takeWhile isJsWhitespace ++ l ++ r2.takeWhile isJsWhitespace ++
                p ++ r3.takeWhile isJsWhitespace ++
                (r3.dropWhile isJsWhitespace).takeWhile isDigitChar ++
                '/' :: '5' :: r4 := by simp [List.append_assoc]
      · exact fun c hc => mem_takeWhile_q _ _ c hc
      · exact fun c hc => mem_takeWhile_q _ _ c hc
      · exact fun c hc => mem_takeWhile_q _ _ c hc
      · intro hnil
        rw [hnil] at he
        simp at he
      · exact fun c hc => mem_takeWhile_q _ _ c hc
  · rintro ⟨r, w1, l, w2, p, w3, ds, rest, ht, hr, hw1, hl, hw2, hp, hw3, hds,
           hdig, hn⟩
    have hsl : strOf "level" = 'l' :: strOf "evel" := rfl
    have hsp : strOf "profile:" = 'p' :: strOf "rofile:" := rfl
    rw [hsl] at hl
    rw [hsp] at hp
    obtain ⟨cl, l', hlm, hlrest, hleq⟩ := List.forall₂_cons_left_iff.mp hl
    obtain ⟨cp, p', hpm, hprest, hpeq⟩ := List.forall₂_cons_left_iff.mp hp
    obtain ⟨d, ds', hdseq⟩ : ∃ d ds', ds = d :: ds' := by
      cases ds with
      | nil => exact absurd rfl hds
      | cons d ds' => exact ⟨d, ds', rfl⟩
    have hlhead : ∀ c cs, l ++ w2 ++ p ++ w3 ++ ds ++ '/' :: '5' :: rest = c :: cs →
        isJsWhitespace c = false := by
      intro c cs heq
      rw [hleq] at heq
      simp only [List.cons_append] at heq
      injection heq with hc _
      rw [← hc]
      exact ws_eq_false_of_ci 'l' cl hlm (by decide) (by decide)
    have hphead : ∀ c cs, p ++ w3 ++ ds ++ '/' :: '5' :: rest = c :: cs →
        isJsWhitespace c = false := by
      intro c cs heq
      rw [hpeq] at heq
      simp only [List.cons_append] at heq
      injection heq with hc _
      rw [← hc]
      exact ws_eq_false_of_ci 'p' cp hpm (by decide) (by decide)
    have hdhead : ∀ c cs, ds ++ '/' :: '5' :: rest = c :: cs →
        isJsWhitespace c = false := by
      intro c cs heq
      rw [hdseq] at heq
      simp only [List.cons_append] at heq
      injection heq with hc _
      rw [← hc]
      exact ws_eq_false_of_digit d (hdig d (by rw [hdseq]; exact List.mem_cons_self d ds'))
    have hslash : ∀ c cs, ('/' : Char) :: '5' :: rest = c :: cs →
        isDigitChar c = false := by
      intro c cs heq
      injection heq with hc _
      rw [← hc]
      decide
    have h1 : matchCI (strOf "roast") t =
        some (w1 ++ l ++ w2 ++ p ++ w3 ++ ds ++ '/' :: '5' :: rest) := by
      refine (matchCI_eq_some_iff _ _ _).mpr ⟨r, ?_, hr⟩
      rw [ht]
      simp [List.append_assoc]
    have h2 : (w1 ++ l ++ w2 ++ p ++ w3 ++ ds ++ '/' :: '5' :: rest).dropWhile
        isJsWhitespace = l ++ w2 ++ p ++ w3 ++ ds ++ '/' :: '5' :: rest := by
      rw [show w1 ++ l ++ w2 ++ p ++ w3 ++ ds ++ '/' :: '5' :: rest =
            w1 ++ (l ++ w2 ++ p ++ w3 ++ ds ++ '/' :: '5' :: rest) by
        simp [List.append_assoc]]
      exact dropWhile_append_eq _ _ _ hw1 hlhead
    have h3 : matchCI (strOf "level") (l ++ w2 ++ p ++ w3 ++ ds ++ '/' :: '5' :: rest) =
        some (w2 ++ p ++ w3 ++ ds ++ '/' :: '5' :: rest) := by
      refine (matchCI_eq_some_iff _ _ _).mpr ⟨l, ?_, by rw [hsl]; exact hl⟩
      simp [List.append_assoc]
    have h4 : (w2 ++ p ++ w3 ++ ds ++ '/' :: '5' :: rest).dropWhile isJsWhitespace =
        p ++ w3 ++ ds ++ '/' :: '5' :: rest := by
      rw [show w2 ++ p ++ w3 ++ ds ++ '/' :: '5' :: rest =
            w2 ++ (p ++ w3 ++ ds ++ '/' :: '5' :: rest) by simp [List.append_assoc]]
      exact dropWhile_append_eq _ _ _ hw2 hphead
    have h5 : matchCI (strOf "profile:") (p ++ w3 ++ ds ++ '/' :: '5' :: rest) =
        some (w3 ++ ds ++ '/' :: '5' :: rest) := by
      refine (matchCI_eq_some_iff _ _ _).mpr ⟨p, ?_, by rw [hsp]; exact hp⟩
      simp [List.append_assoc]
    have h6 : (w3 ++ ds ++ '/' :: '5' :: rest).dropWhile isJsWhitespace =
        ds ++ '/' :: '5' :: rest := by
      rw [show w3 ++ ds ++ '/' :: '5' :: rest =
            w3 ++ (ds ++ '/' :: '5' :: rest) by simp [List.append_assoc]]
      exact dropWhile_append_eq _ _ _ hw3 hdhead
    have h7 : (ds ++ '/' :: '5' :: rest).dropWhile isDigitChar = '/' :: '5' :: rest :=
      dropWhile_append_eq _ _ _ hdig hslash
    have h8 : (ds ++ '/' :: '5' :: rest).takeWhile isDigitChar = ds :=
      takeWhile_append_eq _ _ _ hdig hslash
    have h9 : matchCS (strOf "/5") ('/' :: '5' :: rest) = some rest :=
      (matchCS_eq_some_iff _ _ _).mpr rfl
    have hne : ds.isEmpty = false := by
      rw [hdseq]; rfl
    simp only [matchRoastAt, h1, Option.some_bind, h2, h3, h4, h5, h6, h7, h8, h9,
               hne, Bool.false_eq_true, if_false, hn]

theorem matchRoastAt_eq_none_iff (t : List Char) :
    matchRoastAt t = none ↔ ∀ m, ¬ RoastDecomp t m := by
  cases h : matchRoastAt t with
  | none =>
    constructor
    · intro _ m hm
      have hsome := (matchRoastAt_eq_some_iff t m).mpr hm
      rw [h] at hsome
      cases hsome
    · intro _
      rfl
  | some k =>
    constructor
    · intro hh
      cases hh
    · intro hall
      exact absurd ((matchRoastAt_eq_some_iff t k).mp h) (hall k)

/-- First (leftmost) match of the roast-level regex in `s`, with value `n`. -/
def RoastFirst (s : List Char) (n : Nat) : Prop :=
  ∃ i, RoastDecomp (List.drop i s) n ∧
    ∀ j, j < i → ∀ m, ¬ RoastDecomp (List.drop j s) m

/-- Claim C2: `parseAnalysis` sets `roastLevel` to the integer `N` exactly
when the analysis string contains a match of the case-insensitive pattern
`Roast level Profile: N/5` (arbitrary, possibly empty, whitespace between
the words and after the colon, `N` a nonempty decimal digit sequence),
taking the first such match; when no match exists, `roastLevel` is left
undefined (`none`). -/
theorem roastLevel_eq_first_match (s : List Char) (n : Nat) :
    ((parseAnalysis s).roastLevel = some n ↔ RoastFirst s n) ∧
    ((parseAnalysis s).roastLevel = none ↔ ∀ i m, ¬ RoastDecomp (List.drop i s) m) := by
  have hfield : (parseAnalysis s).roastLevel = scanFirst matchRoastAt s := rfl
  constructor
  · rw [hfield, scanFirst_eq_some_iff]
    constructor
    · rintro ⟨i, hi, hmin⟩
      exact ⟨i, (matchRoastAt_eq_some_iff _ _).mp hi,
             fun j hj m => (matchRoastAt_eq_none_iff _).mp (hmin j hj) m⟩
    · rintro ⟨i, hi, hmin⟩
      exact ⟨i, (matchRoastAt_eq_some_iff _ _).mpr hi,
             fun j hj => (matchRoastAt_eq_none_iff _).mpr (hmin j hj)⟩
  · rw [hfield, scanFirst_eq_none_iff]
    constructor
    · intro h i m
      exact (matchRoastAt_eq_none_iff _).mp (h i) m
    · intro h i
      exact (matchRoastAt_eq_none_iff _).mpr (h i)

/-- Witness for C2 at a concrete analysis string. -/
theorem roastLevel_eq_first_match_witness :
    RoastFirst (strOf "Roast level Profile: 3/5") 3 :=
  (roastLevel_eq_first_match (strOf "Roast level Profile: 3/5") 3).1.mp (by decide)

/-- Claim C1 (amended): for every analysis string and in-depth section title,
when the section regex has no match, `extractSection` returns the empty
string and the card renders the placeholder `"<title> information will
appear after analysis."`; when it matches, the card shows the trimmed
captured body if that trimmed body is nonempty, and still shows the
placeholder when the trimmed body is empty. -/
theorem sections_render (s name : List Char) (hname : name ∈ sectionTitles) :
    (scanFirst (matchSectionAt name) s = none →
      extractSection s name = [] ∧
      renderSectionContent name (extractSection s name) =
        name ++ strOf " information will appear after analysis.") ∧
    (∀ g, scanFirst (matchSectionAt name) s = some g →
      extractSection s name = jsTrim g ∧
      renderSectionContent name (extractSection s name) =
        if (jsTrim g).isEmpty then
          name ++ strOf " information will appear after analysis."
        else jsTrim g) := by
  constructor
  · intro h
    have he : extractSection s name = [] := by
      unfold extractSection
      rw [h]
    exact ⟨he, by rw [he]; rfl⟩
  · intro g hg
    have he : extractSection s name = jsTrim g := by
      unfold extractSection
      rw [hg]
    exact ⟨he, by rw [he]; rfl⟩

/-- Counterexample to C1 as stated: on `"Flavor Profile "` the section regex
matches (with a capture that trims to the empty string), yet the card shows
the placeholder, not the trimmed captured body. -/
theorem sections_render_counterexample :
    scanFirst (matchSectionAt (strOf "Flavor Profile")) (strOf "Flavor Profile ") =
      some [] ∧
    renderSectionContent (strOf "Flavor Profile")
        (extractSection (strOf "Flavor Profile ") (strOf "Flavor Profile")) ≠
      jsTrim [] := by
  decide

/-- Witness for C1 (amended) at concrete inputs. -/
theorem sections_render_witness :
    extractSection (strOf "plain text") (strOf "Roast Level") = [] ∧
    renderSectionContent (strOf "Roast Level")
        (extractSection (strOf "plain text") (strOf "Roast Level")) =
      strOf "Roast Level" ++ strOf " information will appear after analysis." :=
  (sections_render (strOf "plain text") (strOf "Roast Level") (by decide)).1
    (by decide)

/-- Claim C7: `origin` is the trimmed capture of the `Primary coffee origin:`
line when that line matches, with ` - ` and the trimmed capture of the
`Specific farm/region/processing detail:` line appended when that also
matches; when the primary line does not match, `origin` is left undefined
even if the detail line matches. -/
theorem origin_combination (s : List Char) :
    (scanFirst matchPrimaryOriginAt s = none → (parseAnalysis s).origin = none) ∧
    (∀ o, scanFirst matchPrimaryOriginAt s = some o →
      (scanFirst matchRegionAt s = none →
        (parseAnalysis s).origin = some (jsTrim o)) ∧
      (∀ r, scanFirst matchRegionAt s = some r →
        (parseAnalysis s).origin = some (jsTrim o ++ strOf " - " ++ jsTrim r))) := by
  have hO : (parseAnalysis s).origin =
      (match scanFirst matchPrimaryOriginAt s with
       | none => none
       | some o =>
         match scanFirst matchRegionAt s with
         | none => some (jsTrim o)
         | some r => some (jsTrim o ++ strOf " - " ++ jsTrim r)) := rfl
  constructor
  · intro h
    rw [hO, h]
  · intro o ho
    constructor
    · intro hr
      rw [hO, ho, hr]
    · intro r hr
      rw [hO, ho, hr]

/-- Witness for C7 at a concrete analysis string with both lines present. -/
theorem origin_combination_witness :
    (parseAnalysis (strOf "Primary coffee origin: Brazil\nSpecific farm/region/processing detail: Santa\n")).origin =
      some (jsTrim (strOf "Brazil") ++ strOf " - " ++ jsTrim (strOf "Santa")) :=
  ((origin_combination
      (strOf "Primary coffee origin: Brazil\nSpecific farm/region/processing detail: Santa\n")).2
    (strOf "Brazil") (by decide)).2 (strOf "Santa") (by decide)

/-- Claim C9: the extracted roast level is not clamped to 1-5: a matched `0`
renders the placeholder exactly as when no roast level was found (JS `0` is
falsy), while any matched `N > 5` renders all five circles filled with the
out-of-range label `N/5`. -/
theorem roast_card_unclamped (s : List Char) :
    ((parseAnalysis s).roastLevel = some 0 →
      renderRoastCard ((parseAnalysis s).roastLevel) =
        RoastCardView.placeholderText (strOf "Roast level will appear after analysis") ∧
      renderRoastCard ((parseAnalysis s).roastLevel) = renderRoastCard none) ∧
    (∀ n, (parseAnalysis s).roastLevel = some n → 5 < n →
      renderRoastCard ((parseAnalysis s).roastLevel) =
        RoastCardView.scale [true, true, true, true, true]
          (strOf (toString n) ++ strOf "/5")) := by
  constructor
  · intro h
    rw [h]
    exact ⟨rfl, rfl⟩
  · intro n h hn
    rw [h]
    simp only [renderRoastCard, List.map_cons, List.map_nil]
    rw [if_neg (by omega)]
    have e1 : decide (1 ≤ n) = true := decide_eq_true (by omega)
    have e2 : decide (2 ≤ n) = true := decide_eq_true (by omega)
    have e3 : decide (3 ≤ n) = true := decide_eq_true (by omega)
    have e4 : decide (4 ≤ n) = true := decide_eq_true (by omega)
    have e5 : decide (5 ≤ n) = true := decide_eq_true (by omega)
    rw [e1, e2, e3, e4, e5]

/-- Witness for C9 at `0/5` and `7/5`. -/
theorem roast_card_unclamped_witness :
    renderRoastCard ((parseAnalysis (strOf "Roast level Profile: 0/5")).roastLevel) =
      renderRoastCard none ∧
    renderRoastCard ((parseAnalysis (strOf "Roast level Profile: 7/5")).roastLevel) =
      RoastCardView.scale [true, true, true, true, true]
        (strOf (toString 7) ++ strOf "/5") :=
  ⟨((roast_card_unclamped (strOf "Roast level Profile: 0/5")).1 (by decide)).2,
   (roast_card_unclamped (strOf "Roast level Profile: 7/5")).2 7 (by decide) (by omega)⟩

/-- Claim C10: `parseAnalysis` is a pure, deterministic function of the
analysis text: equal inputs give equal records regardless of component
state. -/
theorem parseAnalysis_pure (st1 st2 : ComponentState) (s1 s2 : List Char)
    (h : s1 = s2) :
    parseAnalysisInComponent st1 s1 = parseAnalysisInComponent st2 s2 := by
  rw [h]
  rfl

/-- Witness for C10 with two different component states. -/
theorem parseAnalysis_pure_witness :
    parseAnalysisInComponent ⟨false, [], none, false, "", []⟩ (strOf "abc") =
      parseAnalysisInComponent
        ⟨true, [⟨"x.png", 1, "image/png", []⟩], some "err", true, "done", ["u"]⟩
        (strOf "abc") :=
  parseAnalysis_pure ⟨false, [], none, false, "", []⟩
    ⟨true, [⟨"x.png", 1, "image/png", []⟩], some "err", true, "done", ["u"]⟩
    (strOf "abc") (strOf "abc") rfl

/-- Claim C3: `validateFile` resolves `true` exactly when the size is at most
`10*1024*1024` bytes, the MIME type is one of the four allowed image types,
and the leading bytes carry one of the three sniffed signatures (JPEG
`FF D8 FF` at 0-2, PNG `89 50 4E 47` at 0-3, WEBP `57 45 42 50` at 8-11);
it resolves `false` whenever any of those checks fails. -/
theorem validateFile_iff (f : FileModel) :
    validateFile f = true ↔
      (f.size ≤ MAX_FILE_SIZE ∧ f.type ∈ ALLOWED_MIME_TYPES ∧
        ((f.bytes[0]? = some 0xFF ∧ f.bytes[1]? = some 0xD8 ∧
          f.bytes[2]? = some 0xFF) ∨
         (f.bytes[0]? = some 0x89 ∧ f.bytes[1]? = some 0x50 ∧
          f.bytes[2]? = some 0x4E ∧ f.bytes[3]? = some 0x47) ∨
         (f.bytes[8]? = some 0x57 ∧ f.bytes[9]? = some 0x45 ∧
          f.bytes[10]? = some 0x42 ∧ f.bytes[11]? = some 0x50))) := by
  have htake : ∀ i, i < 12 → (f.bytes.take 12)[i]? = f.bytes[i]? := by
    intro i hi
    rw [List.getElem?_take, if_pos hi]
  unfold validateFile
  by_cases hs : MAX_FILE_SIZE < f.size
  · rw [if_pos hs]
    constructor
    · intro h; cases h
    · rintro ⟨h1, -, -⟩
      omega
  · rw [if_neg hs]
    by_cases hm : ALLOWED_MIME_TYPES.contains f.type = true
    · rw [if_neg (by rw [hm]; decide)]
      have hcm : ALLOWED_MIME_TYPES.contains f.type = true ↔
          f.type ∈ ALLOWED_MIME_TYPES := List.elem_iff
      have hmem : f.type ∈ ALLOWED_MIME_TYPES := hcm.mp hm
      simp only [htake 0 (by omega), htake 1 (by omega), htake 2 (by omega),
                 htake 3 (by omega), htake 8 (by omega), htake 9 (by omega),
                 htake 10 (by omega), htake 11 (by omega),
                 Bool.or_eq_true, Bool.and_eq_true, beq_iff_eq]
      constructor
      · intro h
        exact ⟨by omega, hmem, by tauto⟩
      · rintro ⟨-, -, h⟩
        tauto
    · have hmf : ALLOWED_MIME_TYPES.contains f.type = false := by
        simpa using hm
      rw [if_pos (by rw [hmf]; decide)]
      constructor
      · intro h; cases h
      · rintro ⟨-, hmem, -⟩
        have hcm : ALLOWED_MIME_TYPES.contains f.type = true ↔
            f.type ∈ ALLOWED_MIME_TYPES := List.elem_iff
        exact absurd (hcm.mpr hmem) hm

/-- Witness for C3 at a concrete PNG file. -/
theorem validateFile_iff_witness :
    (FileModel.mk "a.png" 4 "image/png" [0x89, 0x50, 0x4E, 0x47]).size ≤
        MAX_FILE_SIZE ∧
    (FileModel.mk "a.png" 4 "image/png" [0x89, 0x50, 0x4E, 0x47]).type ∈
        ALLOWED_MIME_TYPES ∧
    (((FileModel.mk "a.png" 4 "image/png" [0x89, 0x50, 0x4E, 0x47]).bytes[0]? =
          some 0xFF ∧
      (FileModel.mk "a.png" 4 "image/png" [0x89, 0x50, 0x4E, 0x47]).bytes[1]? =
          some 0xD8 ∧
      (FileModel.mk "a.png" 4 "image/png" [0x89, 0x50, 0x4E, 0x47]).bytes[2]? =
          some 0xFF) ∨
     ((FileModel.mk "a.png" 4 "image/png" [0x89, 0x50, 0x4E, 0x47]).bytes[0]? =
          some 0x89 ∧
      (FileModel.mk "a.png" 4 "image/png" [0x89, 0x50, 0x4E, 0x47]).bytes[1]? =
          some 0x50 ∧
      (FileModel.mk "a.png" 4 "image/png" [0x89, 0x50, 0x4E, 0x47]).bytes[2]? =
          some 0x4E ∧
      (FileModel.mk "a.png" 4 "image/png" [0x89, 0x50, 0x4E, 0x47]).bytes[3]? =
          some 0x47) ∨
     ((FileModel.mk "a.png" 4 "image/png" [0x89, 0x50, 0x4E, 0x47]).bytes[8]? =
          some 0x57 ∧
      (FileModel.mk "a.png" 4 "image/png" [0x89, 0x50, 0x4E, 0x47]).bytes[9]? =
          some 0x45 ∧
      (FileModel.mk "a.png" 4 "image/png" [0x89, 0x50, 0x4E, 0x47]).bytes[10]? =
          some 0x42 ∧
      (FileModel.mk "a.png" 4 "image/png" [0x89, 0x50, 0x4E, 0x47]).bytes[11]? =
          some 0x50)) :=
  (validateFile_iff (FileModel.mk "a.png" 4 "image/png" [0x89, 0x50, 0x4E, 0x47])).mp
    (by decide)

/-- Claim C4: `compressImage` scales the larger dimension to exactly 800 when
it exceeds 800 (the other dimension scaled by the same ratio, `height*800/width`
when `width > height` and `width*800/height` otherwise), keeps dimensions when
the larger one is at most 800, and always outputs JPEG at quality 0.8. -/
theorem compressImage_spec (w h : ℚ) (hw : 0 < w) (hh : 0 < h) :
    (800 < max w h →
      (h < w → compressImage w h = ⟨800, h * 800 / w, "image/jpeg", 4/5⟩) ∧
      (w ≤ h → compressImage w h = ⟨w * 800 / h, 800, "image/jpeg", 4/5⟩)) ∧
    (max w h ≤ 800 → compressImage w h = ⟨w, h, "image/jpeg", 4/5⟩) ∧
    (compressImage w h).mime = "image/jpeg" ∧
    (compressImage w h).quality = 4/5 := by
  refine ⟨?_, ?_, ?_, ?_⟩
  · intro hmax
    constructor
    · intro hwh
      have h800 : (800 : ℚ) < w := by
        rcases lt_max_iff.mp hmax with h8 | h8
        · exact h8
        · linarith
      unfold compressImage
      rw [if_pos hwh, if_pos h800]
    · intro hwh
      have h800 : (800 : ℚ) < h := by
        rcases lt_max_iff.mp hmax with h8 | h8
        · linarith
        · exact h8
      unfold compressImage
      rw [if_neg (not_lt.mpr hwh), if_pos h800]
  · intro hmax
    have hw8 : w ≤ 800 := le_trans (le_max_left w h) hmax
    have hh8 : h ≤ 800 := le_trans (le_max_right w h) hmax
    unfold compressImage
    by_cases hwh : h < w
    · rw [if_pos hwh, if_neg (not_lt.mpr hw8)]
    · rw [if_neg hwh, if_neg (not_lt.mpr hh8)]
  · unfold compressImage
    split_ifs <;> rfl
  · unfold compressImage
    split_ifs <;> rfl

/-- Witness for C4 at 1600 x 1200 (downscaled to 800 x 600). -/
theorem compressImage_spec_witness :
    compressImage 1600 1200 = ⟨800, 1200 * 800 / 1600, "image/jpeg", 4/5⟩ :=
  ((compressImage_spec 1600 1200 (by norm_num) (by norm_num)).1
    (by norm_num)).1 (by norm_num)

/-- Claim C5: submitting with at least one uploaded image and input that is
empty after trimming sends a user message whose content is exactly
`COFFEE_ANALYSIS_PROMPT`, with one attachment per file carrying the original
file name and contentType `image/jpeg`, followed by a second user message
whose content is exactly `FOLLOW_UP_ANALYSIS_PROMPT`. -/
theorem submit_messages (input : String) (imgs : List FileModel)
    (himg : imgs ≠ []) (htrim : jsTrim input.data = []) :
    handleFormSubmit input imgs =
      [⟨ChatRole.user, COFFEE_ANALYSIS_PROMPT,
        some (imgs.map fun f => ⟨f.name, "image/jpeg"⟩)⟩,
       ⟨ChatRole.user, FOLLOW_UP_ANALYSIS_PROMPT, none⟩] := by
  obtain ⟨f, fs, rfl⟩ : ∃ f fs, imgs = f :: fs := by
    cases imgs with
    | nil => exact absurd rfl himg
    | cons f fs => exact ⟨f, fs, rfl⟩
  unfold handleFormSubmit
  rw [htrim]
  rfl

/-- Witness for C5 at a concrete file and empty input. -/
theorem submit_messages_witness :
    handleFormSubmit "" [FileModel.mk "coffee.png" 100 "image/png" [137, 80, 78, 71]] =
      [⟨ChatRole.user, COFFEE_ANALYSIS_PROMPT,
        some [⟨"coffee.png", "image/jpeg"⟩]⟩,
       ⟨ChatRole.user, FOLLOW_UP_ANALYSIS_PROMPT, none⟩] :=
  submit_messages "" [FileModel.mk "coffee.png" 100 "image/png" [137, 80, 78, 71]]
    (by decide) (by decide)

theorem handleDrop_eq (cur inc : List FileModel) :
    handleDrop cur inc =
      if MAX_FILES < cur.length +
          (inc.filter fun f => ALLOWED_MIME_TYPES.contains f.type).length then
        (cur, [maxFilesAlert])
      else
        (cur ++ (inc.filter fun f => ALLOWED_MIME_TYPES.contains f.type).filter
            (fun f => validateFile f),
         ((inc.filter fun f => ALLOWED_MIME_TYPES.contains f.type).filter
            (fun f => !validateFile f)).map fun f => rejectAlert f.name) := rfl

/-- Claim C6: both upload paths run the same batch logic and preserve the
at-most-`MAX_FILES` invariant: when the current count plus the MIME-filtered
incoming count exceeds the limit, the whole batch is rejected (one alert,
list unchanged); otherwise exactly the files passing `validateFile` are
appended in order. -/
theorem upload_limit (cur inc : List FileModel) (hcur : cur.length ≤ MAX_FILES) :
    handleFileSelect cur inc = handleDrop cur inc ∧
    (handleDrop cur inc).1.length ≤ MAX_FILES ∧
    (MAX_FILES < cur.length +
        (inc.filter fun f => ALLOWED_MIME_TYPES.contains f.type).length →
      (handleDrop cur inc).1 = cur ∧ (handleDrop cur inc).2 = [maxFilesAlert]) ∧
    (cur.length + (inc.filter fun f => ALLOWED_MIME_TYPES.contains f.type).length ≤
        MAX_FILES →
      (handleDrop cur inc).1 =
        cur ++ (inc.filter fun f => ALLOWED_MIME_TYPES.contains f.type).filter
          (fun f => validateFile f)) := by
  refine ⟨rfl, ?_, ?_, ?_⟩
  · rw [handleDrop_eq]
    by_cases hlim : MAX_FILES < cur.length +
        (inc.filter fun f => ALLOWED_MIME_TYPES.contains f.type).length
    · rw [if_pos hlim]
      exact hcur
    · rw [if_neg hlim]
      have hfl := List.length_filter_le (fun f => validateFile f)
        (inc.filter fun f => ALLOWED_MIME_TYPES.contains f.type)
      simp only [List.length_append]
      omega
  · intro hlim
    rw [handleDrop_eq, if_pos hlim]
    exact ⟨rfl, rfl⟩
  · intro hlim
    rw [handleDrop_eq, if_neg (by omega)]

/-- Witness for C6: an oversized batch is rejected whole. -/
theorem upload_limit_witness :
    (handleDrop
        [FileModel.mk "a.png" 1 "image/png" [137, 80, 78, 71],
         FileModel.mk "b.png" 1 "image/png" [137, 80, 78, 71],
         FileModel.mk "c.png" 1 "image/png" [137, 80, 78, 71]]
        [FileModel.mk "d.png" 1 "image/png" [137, 80, 78, 71],
         FileModel.mk "e.png" 1 "image/png" [137, 80, 78, 71],
         FileModel.mk "f.png" 1 "image/png" [137, 80, 78, 71]]).1 =
      [FileModel.mk "a.png" 1 "image/png" [137, 80, 78, 71],
       FileModel.mk "b.png" 1 "image/png" [137, 80, 78, 71],
       FileModel.mk "c.png" 1 "image/png" [137, 80, 78, 71]] ∧
    (handleDrop
        [FileModel.mk "a.png" 1 "image/png" [137, 80, 78, 71],
         FileModel.mk "b.png" 1 "image/png" [137, 80, 78, 71],
         FileModel.mk "c.png" 1 "image/png" [137, 80, 78, 71]]
        [FileModel.mk "d.png" 1 "image/png" [137, 80, 78, 71],
         FileModel.mk "e.png" 1 "image/png" [137, 80, 78, 71],
         FileModel.mk "f.png" 1 "image/png" [137, 80, 78, 71]]).2 =
      [maxFilesAlert] :=
  ((upload_limit
      [FileModel.mk "a.png" 1 "image/png" [137, 80, 78, 71],
       FileModel.mk "b.png" 1 "image/png" [137, 80, 78, 71],
       FileModel.mk "c.png" 1 "image/png" [137, 80, 78, 71]]
      [FileModel.mk "d.png" 1 "image/png" [137, 80, 78, 71],
       FileModel.mk "e.png" 1 "image/png" [137, 80, 78, 71],
       FileModel.mk "f.png" 1 "image/png" [137, 80, 78, 71]]
      (by decide)).2.2.1 (by decide))

/-- Claim C8 (amended): the upload failure paths (file rejection and batch
limit) are surfaced through `alert()` dialogs, but chat transport errors are
surfaced through the inline error banner set by `onError`, not an alert. -/
theorem failures_surface (f : UserFacingFailure) :
    (∃ t, surfaceFailure f = SurfaceMechanism.alertDialog t) ↔
      (∀ m, f ≠ UserFacingFailure.chatError m) := by
  cases f with
  | fileRejected name =>
    constructor
    · intro _ m h
      cases h
    · intro _
      exact ⟨rejectAlert name, rfl⟩
  | batchLimitExceeded =>
    constructor
    · intro _ m h
      cases h
    · intro _
      exact ⟨maxFilesAlert, rfl⟩
  | chatError msg =>
    constructor
    · rintro ⟨t, ht⟩
      cases ht
    · intro h
      exact absurd rfl (h msg)

/-- Counterexample to C8 as stated: a chat transport error is surfaced by
the error banner, not by any `alert()` dialog. -/
theorem failures_surface_counterexample :
    ¬ ∃ t, surfaceFailure (UserFacingFailure.chatError "Failed to fetch") =
        SurfaceMechanism.alertDialog t := by
  rintro ⟨t, ht⟩
  cases ht

/-- Witness for C8 (amended): the batch-limit failure is an alert. -/
theorem failures_surface_witness :
    ∃ t, surfaceFailure UserFacingFailure.batchLimitExceeded =
        SurfaceMechanism.alertDialog t :=
  (failures_surface UserFacingFailure.batchLimitExceeded).mpr
    (fun _ h => UserFacingFailure.noConfusion h)
